import Mathlib

set_option maxRecDepth 40000

/-!
Verification of the vesta controller-synthesis engine (`src/gen/ControllerGen.ts`).

The generator is a schema-driven source-code synthesizer: it emits the text of a
REST controller from declarative field metadata.  We model emitted code as Lean
strings (lists of characters), and embed the string-building functions of
`ControllerGen` directly.  Collaborators that are not part of the given sources
(the schema inspector `util/Model`, the string utilities `util/StringUtil` /
lodash `camelCase`, and the `Placeholder` marker constants) are modelled from
the specification; each such definition is marked `Modelled from the spec:` in
its doc comment.

Literal braces, apostrophes and backticks inside string literals are written
with `\x7b`, `\x7d`, `\x27` and `\x60` escapes.
-/

namespace Vesta

/-! ## Character-list string machinery

JavaScript string primitives used by the generator (`indexOf`, `search` with a
literal pattern, first-occurrence `replace`, regex slash-collapsing) modelled
over `List Char`. -/

/-- Boolean test that `p` is a leading piece of `s` (JS `startsWith`). -/
def isPfx : List Char → List Char → Bool
  | [], _ => true
  | _ :: _, [] => false
  | a :: as, b :: bs => a == b && isPfx as bs

/-- Boolean substring test on character lists (JS `indexOf(pat) >= 0`). -/
def occursIn (pat : List Char) (s : List Char) : Bool :=
  match s with
  | [] => isPfx pat []
  | _ :: cs => isPfx pat s || occursIn pat cs

/-- Left-to-right scan deciding that an occurrence of `pat1` starts strictly
before the first occurrence of `pat2` (and that `pat2` does occur at all):
used to state emission-order facts about generated handler text. -/
def firstBefore (pat1 pat2 : List Char) : List Char → Bool
  | [] => false
  | s@(_ :: cs) =>
    if isPfx pat2 s then false
    else if isPfx pat1 s then occursIn pat2 s
    else firstBefore pat1 pat2 cs

/-- String wrapper for `firstBefore`. -/
def emittedBefore (s pat1 pat2 : String) : Bool := firstBefore pat1.data pat2.data s.data

/-- Index of the first occurrence of `pat` in `s` (JS `indexOf` / `search` with a
literal, metacharacter-free pattern; `none` models the index `-1`). -/
def firstIdxL (s pat : List Char) : Option Nat :=
  match s with
  | [] => if isPfx pat [] then some 0 else none
  | _ :: cs => if isPfx pat s then some 0 else (firstIdxL cs pat).map (· + 1)

/-- JS truthiness of `s.search(pat)`: the result is falsy exactly when the match
is at index `0`; an absent match gives `-1`, which is truthy. -/
def searchIsTruthy (s pat : List Char) : Bool :=
  match firstIdxL s pat with
  | some 0 => false
  | _ => true

/-- First-occurrence string replacement (JS `String.prototype.replace` with a
string pattern).  If `pat` does not occur, `s` is returned unchanged. -/
def replaceFirstL (s pat rep : List Char) : List Char :=
  match s with
  | [] => []
  | c :: cs => if isPfx pat s then rep ++ s.drop pat.length else c :: replaceFirstL cs pat rep

/-- Collapsing of every run of consecutive slashes to a single slash, the
semantics of `replace(/\/\x7b2,\x7d/g, "/")` used by `normalizeRoutingPath`
(state `prevSlash` records whether the previous kept character was part of a
slash run). -/
def collapseGo (prevSlash : Bool) : List Char → List Char
  | [] => []
  | c :: rest =>
    if c = '/' then
      if prevSlash then collapseGo true rest
      else '/' :: collapseGo true rest
    else c :: collapseGo false rest

/-- Collapsing of repeated slashes, as in the generator's routing-path cleanup. -/
def collapseSlashes (l : List Char) : List Char := collapseGo false l

/-- Substring test on `String`, wrapping `occursIn`. -/
def containsSub (s pat : String) : Bool := occursIn pat.data s.data

/-- First-occurrence index on `String`, wrapping `firstIdxL`. -/
def firstIdxS (s pat : String) : Option Nat := firstIdxL s.data pat.data

/-! ## Schema model

The schema inspector (`util/Model.ts`) is not part of the given sources; its
contract is §4.1 of the spec.  A model is a named, ordered field list; each
field carries its type, an optional list element type, optional relation
metadata, and the two per-field security flags from which the SecurityProfile
(`confidentialFields`, `ownerVerifiedFields`) is derived. -/

/-- Field types distinguished by the generator. -/
inductive FieldType
  | File
  | Relation
  | List
  | Text
  | Number
deriving DecidableEq

/-- Relation metadata: the related model's name and its optional non-default
storage path (§3 FieldMeta invariant). -/
structure RelationMeta where
  model : String
  path : Option String := none
deriving DecidableEq

/-- Metadata of a single declared field. -/
structure FieldMeta where
  fieldName : String
  fieldType : FieldType
  listOf : Option FieldType := none
  relation : Option RelationMeta := none
  isConfidential : Bool := false
  isOwnerVerified : Bool := false
deriving DecidableEq

/-- A named model: its declared field list. -/
structure ModelSchema where
  name : String
  fields : List FieldMeta
deriving DecidableEq

/-- The ambient schema registry: all declared models. -/
abbrev Schema := List ModelSchema

/-- Field list of the named model (empty for an unknown model name; the claims
under verification only involve known models). -/
def modelFields (sch : Schema) (modelName : String) : List FieldMeta :=
  (((sch.find? fun m => m.name == modelName).map fun m => m.fields)).getD []

/-- Test that a field is "of type `t`": either directly, or a `List` field whose
element type is `t` (so that list-of-file fields are returned for `File`, as
the delete handler's `field.properties.type === FieldType.List` branch
presupposes). -/
def fieldMatchesType (t : FieldType) (f : FieldMeta) : Bool :=
  f.fieldType == t || (f.fieldType == FieldType.List && f.listOf == some t)

/-- Modelled from the spec: `fieldsByType(model, type) -> ModelFieldSet | null`
(§4.1) — `none` exactly when no field of that type exists. -/
def getFieldsByType (sch : Schema) (modelName : String) (t : FieldType) : Option (List FieldMeta) :=
  let l := (modelFields sch modelName).filter (fieldMatchesType t)
  if l.isEmpty then none else some l

/-- Modelled from the spec: `confidentialFields(model)` (§4.1) — the ordered
names of the fields flagged confidential. -/
def getConfidentialFields (sch : Schema) (modelName : String) : List String :=
  ((modelFields sch modelName).filter fun f => f.isConfidential).map fun f => f.fieldName

/-- Modelled from the spec: `ownerVerifiedFields(model)` (§4.1) — the ordered
names of the fields flagged owner-verified. -/
def getOwnerVerifiedFields (sch : Schema) (modelName : String) : List String :=
  ((modelFields sch modelName).filter fun f => f.isOwnerVerified).map fun f => f.fieldName

/-- Modelled from the spec: `fieldMeta(model, fieldName)` (§4.1).  A dummy
`Text` field stands in for an unknown name (unused on the claims' inputs). -/
def getFieldMeta (sch : Schema) (modelName fieldName : String) : FieldMeta :=
  ((modelFields sch modelName).find? fun f => f.fieldName == fieldName).getD
    { fieldName := fieldName, fieldType := FieldType.Text }

/-- Whether the model declares at least one File-typed field (directly or as a
list of files): the condition under which `this.filesFields` is non-null. -/
def hasFileField (sch : Schema) (modelName : String) : Bool :=
  (modelFields sch modelName).any (fieldMatchesType FieldType.File)

/-! ## Modelled string utilities

`camelCase` (lodash) and `pascalCase` (`util/StringUtil`) are external to the
given sources. -/

/-- Modelled from the spec: word splitting underlying the "lower-camel-cased
controller name" (lodash `camelCase`).  Words are maximal alphanumeric runs,
additionally split where a lower-case letter or digit is followed by an
upper-case letter; the accumulator holds the current word reversed. -/
def splitWordsAux : List Char → List Char → List (List Char)
  | [], acc => if acc.isEmpty then [] else [acc.reverse]
  | c :: rest, acc =>
    if c.isAlphanum = false then
      (if acc.isEmpty then [] else [acc.reverse]) ++ splitWordsAux rest []
    else if c.isUpper && (match acc with | p :: _ => p.isLower || p.isDigit | [] => false) then
      acc.reverse :: splitWordsAux rest [c]
    else
      splitWordsAux rest (c :: acc)

/-- Upper-case the first character of a word, lower-case the rest. -/
def capitalizeWord : List Char → List Char
  | [] => []
  | c :: r => c.toUpper :: r.map Char.toLower

/-- Modelled from the spec: lodash `camelCase` — the first word fully
lower-cased, every later word capitalized. -/
def camelCase (s : String) : String :=
  match splitWordsAux s.data [] with
  | [] => ""
  | w :: ws => ⟨w.map Char.toLower ++ (ws.map capitalizeWord).flatten⟩

/-- Modelled from the spec: `StringUtil.pascalCase` — upper-case the first
character. -/
def pascalCase (s : String) : String :=
  match s.data with
  | [] => ""
  | c :: r => ⟨c.toUpper :: r⟩

/-! ## ControllerGen: routing-path normalization and the route table -/

/-- Leading-slash normalization: `routingPath.charAt(0) !== "/"` prepends a
slash (`ControllerGen.normalizeRoutingPath`, first step). -/
def leadingSlash (r : List Char) : List Char :=
  if r.head? = some '/' then r else '/' :: r

/-- Embeds `ControllerGen.normalizeRoutingPath` (lines 195–203): normalize the
route base to a leading slash, append the camel-cased controller name as final
segment, collapse repeated slashes. -/
def normalizeRoutingPath (route name : String) : String :=
  ⟨collapseSlashes (leadingSlash route.data ++ '/' :: (camelCase name).data)⟩

/-- One `router.<verb>(path, checkAcl(…, action), wrap(handler))` registration
appended by `addCRUDOperations`. -/
structure RouteReg where
  verb : String
  path : String
  action : String
deriving DecidableEq

/-- Embeds the route registrations of `ControllerGen.addCRUDOperations`
(lines 150–192), in emission order: count, detail read, list read, create,
update, delete, and — exactly when `this.filesFields` is non-null — the upload
route.  The list-read registration reuses the `AclAction.Read` middleware
computed for the detail read, as the source does. -/
def addCRUDRoutes (sch : Schema) (model : String) (routingPath : String) : List RouteReg :=
  [{ verb := "get", path := routingPath ++ "/count", action := "AclAction.Read" },
   { verb := "get", path := routingPath ++ "/:id", action := "AclAction.Read" },
   { verb := "get", path := routingPath, action := "AclAction.Read" },
   { verb := "post", path := routingPath, action := "AclAction.Add" },
   { verb := "put", path := routingPath, action := "AclAction.Edit" },
   { verb := "delete", path := routingPath ++ "/:id", action := "AclAction.Delete" }]
  ++ match getFieldsByType sch model FieldType.File with
     | some _ => [{ verb := "post", path := routingPath ++ "/file/:id", action := "AclAction.Edit" }]
     | none => []

/-- The route table exactly as §4.2 of the spec enumerates it (spec-side
definition, for comparison with the source-derived `addCRUDRoutes`). -/
def specRouteTable (p : String) (hasFile : Bool) : List RouteReg :=
  [{ verb := "get", path := p ++ "/count", action := "AclAction.Read" },
   { verb := "get", path := p ++ "/:id", action := "AclAction.Read" },
   { verb := "get", path := p, action := "AclAction.Read" },
   { verb := "post", path := p, action := "AclAction.Add" },
   { verb := "put", path := p, action := "AclAction.Edit" },
   { verb := "delete", path := p ++ "/:id", action := "AclAction.Delete" }]
  ++ if hasFile then [{ verb := "post", path := p ++ "/file/:id", action := "AclAction.Edit" }] else []

/-! ## ControllerGen: handler-body synthesis

Each `get…Code` method of `ControllerGen` is embedded as a function of the
ambient schema and the raw `config.model` string, returning the emitted handler
text.  Template-literal whitespace (`\n` plus eight spaces inside class-method
bodies, explicit `\t` runs) is reproduced from the source. -/

/-- Embeds `getAuthUserCode` (lines 205–210): the authenticated-user binding,
emitted only when `ownerVerifiedFields` is non-empty. -/
def getAuthUserCode (sch : Schema) (model : String) : String :=
  if (getOwnerVerifiedFields sch model).length ≠ 0 then
    "const authUser = this.getUserFromSession(req);\n        const isAdmin = this.isAdmin(authUser);\n\t\t"
  else ""

/-- Embeds `getConfFieldRemovingCode` (lines 212–247).  Note the source's
emptiness test on line 215 is `if (!this.confidentialFields.length)`: the loop
emitting `delete result.items[…].<field>` statements for the model's own
confidential fields is entered only when that list is EMPTY (and then runs zero
times).  Relation-target confidential fields are handled outside that test. -/
def getConfFieldRemovingCode (sch : Schema) (model : String) (singleRecord : Bool) : String :=
  let confidentialFields := getConfidentialFields sch model
  let index := if singleRecord then "0" else "i"
  let confRemovers₁ : List String :=
    if confidentialFields.length = 0 then
      (List.range confidentialFields.length).reverse.map fun i =>
        "delete result.items[" ++ index ++ "]." ++ confidentialFields.getD i "" ++ ";"
    else []
  let confRemovers₂ : List String :=
    match getFieldsByType sch model FieldType.Relation with
    | none => []
    | some rf =>
      let relationFieldsNames := rf.map fun f => f.fieldName
      ((List.range relationFieldsNames.length).reverse.map fun i =>
        let meta := getFieldMeta sch model (relationFieldsNames.getD i "")
        match meta.relation with
        | none => []
        | some rel =>
          let relConfFields := getConfidentialFields sch rel.model
          if relConfFields.length ≠ 0 then
            (List.range relConfFields.length).reverse.map fun j =>
              "delete (result.items[" ++ index ++ "]." ++ relationFieldsNames.getD i "" ++
                " as I" ++ rel.model ++ ")." ++ relConfFields.getD j "" ++ ";"
          else []).flatten
  let confRemovers := confRemovers₁ ++ confRemovers₂
  if confRemovers.length ≠ 0 then
    if singleRecord then
      "\n\t\t" ++ String.intercalate "\n\t\t" confRemovers
    else
      "\n\t\tfor (let i = result.items.length; i--;) \x7b\n            " ++
        String.intercalate "\n\t\t\t" confRemovers ++ "\n        \x7d"
  else ""

/-- Embeds `getQueryCodeForSingleInstance` (lines 249–271).  The owner checks
interpolate `this.ownerVerifiedFields` — the whole array, which JavaScript
stringifies comma-joined — not the loop element `[i]`. -/
def getQueryCodeForSingleInstance (sch : Schema) (model : String) : String :=
  let modelName := pascalCase model
  let ownerVerifiedFields := getOwnerVerifiedFields sch model
  let ownerFieldsJoined := String.intercalate "," ownerVerifiedFields
  let ownerChecks : List String :=
    (List.range ownerVerifiedFields.length).reverse.map fun i =>
      let meta := getFieldMeta sch model (ownerVerifiedFields.getD i "")
      match meta.relation with
      | some rel =>
        "(result.items[0]." ++ ownerFieldsJoined ++ " as I" ++ rel.model ++ ").id !== authUser.id"
      | none => "result.items[0]." ++ ownerFieldsJoined ++ " !== authUser.id"
  let ownerCheckCode :=
    if ownerChecks.length ≠ 0 then
      " || (!isAdmin && (" ++ String.intercalate " || " ownerChecks ++ "))"
    else ""
  let relationFields :=
    match getFieldsByType sch model FieldType.Relation with
    | some rf =>
      ", \x7b relations: [\"" ++ String.intercalate "\", \"" (rf.map fun f => f.fieldName) ++ "\"] \x7d"
    | none => ""
  getAuthUserCode sch model ++ "const id = this.retrieveId(req);\n        const result = await " ++
    modelName ++ ".find<I" ++ modelName ++ ">(id" ++ relationFields ++
    ");\n        if (!result.items.length" ++ ownerCheckCode ++
    ") \x7b\n            throw new DatabaseError(Err.Code.DBNoRecord, null);\n        \x7d" ++
    getConfFieldRemovingCode sch model true ++ "\n        res.json(result);"

/-- Embeds `getQueryCodeForMultiInstance` (lines 273–287): the list read, with
an owner filter (correctly per-field, `[i]`) for non-admin requests. -/
def getQueryCodeForMultiInstance (sch : Schema) (model : String) : String :=
  let modelName := pascalCase model
  let ownerVerifiedFields := getOwnerVerifiedFields sch model
  let ownerQueries :=
    (List.range ownerVerifiedFields.length).reverse.map fun i =>
      ownerVerifiedFields.getD i "" ++ ": authUser.id"
  let ownerQueriesCode :=
    if ownerQueries.length ≠ 0 then
      "\n\t\tif (!isAdmin) \x7b\n            query.filter(\x7b" ++
        String.intercalate ", " ownerQueries ++ "\x7d);\n        \x7d"
    else ""
  getAuthUserCode sch model ++ "const query = this.query2vql(" ++ modelName ++ ", req.query);" ++
    ownerQueriesCode ++ "\n        const result = await " ++ modelName ++ ".find<I" ++ modelName ++
    ">(query);" ++ getConfFieldRemovingCode sch model false ++ "\n        res.json(result);"

/-- Embeds `getCountCode` (lines 289–295). -/
def getCountCode (sch : Schema) (model : String) : String :=
  let modelName := pascalCase model
  "const query = this.query2vql(" ++ modelName ++ ", req.query, true);\n        const result = await " ++
    modelName ++ ".count<I" ++ modelName ++ ">(query);\n        res.json(result);"

/-- Embeds `getQueryCode` (lines 297–299). -/
def getQueryCode (sch : Schema) (model : String) (isSingle : Bool) : String :=
  if isSingle then getQueryCodeForSingleInstance sch model else getQueryCodeForMultiInstance sch model

/-- Embeds `getInsertCode` (lines 301–320): force-assignment of owner-verified
fields for non-admins, then validation, then insert. -/
def getInsertCode (sch : Schema) (model : String) : String :=
  let modelName := pascalCase model
  let modelInstanceName := camelCase modelName
  let ownerVerifiedFields := getOwnerVerifiedFields sch model
  let ownerAssigns :=
    (List.range ownerVerifiedFields.length).reverse.map fun i =>
      modelInstanceName ++ "." ++ ownerVerifiedFields.getD i "" ++ " = authUser.id;"
  let ownerAssignCode :=
    if ownerAssigns.length ≠ 0 then
      "\n\t\tif (!isAdmin) \x7b\n            " ++ String.intercalate "\n\t\t" ownerAssigns ++ "\n        \x7d"
    else ""
  getAuthUserCode sch model ++ "const " ++ modelInstanceName ++ " = new " ++ modelName ++ "(req.body);" ++
    ownerAssignCode ++
    "\n        const validationError = " ++ modelInstanceName ++
    ".validate();\n        if (validationError) \x7b\n            throw new ValidationError(validationError);\n        \x7d\n        const result = await " ++
    modelInstanceName ++ ".insert<I" ++ modelName ++ ">();" ++
    getConfFieldRemovingCode sch model true ++ "\n        res.json(result);"

/-- Embeds `getUpdateCode` (lines 322–345): assignment of owner-verified fields
on the request-body instance for non-admins, validation, retrieval by id, an
inline check comparing the (already assigned) instance fields — not
`result.items[0]` — and finally the update. -/
def getUpdateCode (sch : Schema) (model : String) : String :=
  let modelName := pascalCase model
  let modelInstanceName := camelCase modelName
  let ownerVerifiedFields := getOwnerVerifiedFields sch model
  let ownerChecks :=
    (List.range ownerVerifiedFields.length).reverse.map fun i =>
      modelInstanceName ++ "." ++ ownerVerifiedFields.getD i "" ++ " = authUser.id;"
  let ownerInlineChecks :=
    (List.range ownerVerifiedFields.length).reverse.map fun i =>
      modelInstanceName ++ "." ++ ownerVerifiedFields.getD i "" ++ " !== authUser.id"
  let ownerCheckCode :=
    if ownerChecks.length ≠ 0 then
      "\n\t\tif (!isAdmin) \x7b\n\t\t\t" ++ String.intercalate "\n\t\t\t" ownerChecks ++ "\n\t\t\x7d"
    else ""
  let ownerCheckInlineCode :=
    if ownerInlineChecks.length ≠ 0 then
      " || (!isAdmin && (" ++ String.intercalate " || " ownerInlineChecks ++ "))"
    else ""
  getAuthUserCode sch model ++ "const " ++ modelInstanceName ++ " = new " ++ modelName ++ "(req.body);" ++
    ownerCheckCode ++
    "\n        const validationError = " ++ modelInstanceName ++
    ".validate();\n        if (validationError) \x7b\n            throw new ValidationError(validationError);\n        \x7d\n        const result = await " ++
    modelName ++ ".find<I" ++ modelName ++ ">(" ++ modelInstanceName ++
    ".id);\n        if (!result.items.length" ++ ownerCheckInlineCode ++
    ") \x7b\n            throw new DatabaseError(Err.Code.DBNoRecord, null);\n        \x7d\n        const uResult = await " ++
    modelInstanceName ++ ".update<I" ++ modelName ++ ">();" ++
    getConfFieldRemovingCode sch model true ++ "\n        res.json(uResult);"

/-- Embeds `getDeleteCode` (lines 347–395): optional ownership guard (again
interpolating the whole `ownerVerifiedFields` array), per-file-field deletion
scheduling, and the guarded (`try`/`catch` + warning log) deletion loop.  Note
the source passes the pascal-cased `modelName` — not `config.model` — to
`getFieldsByType` here. -/
def getDeleteCode (sch : Schema) (model : String) : String :=
  let modelName := pascalCase model
  let modelInstanceName := camelCase modelName
  let ownerVerifiedFields := getOwnerVerifiedFields sch model
  let ownerFieldsJoined := String.intercalate "," ownerVerifiedFields
  let ownerChecks : List String :=
    if ownerVerifiedFields.length ≠ 0 then
      (List.range ownerVerifiedFields.length).reverse.map fun _ =>
        "result.items[0]." ++ ownerFieldsJoined ++ " !== authUser.id"
    else []
  let deleteFileCode : List String :=
    match getFieldsByType sch modelName FieldType.File with
    | none => []
    | some ff =>
      ["\n\t\tconst filesToBeDeleted = [];",
       "const baseDirectory = \x60$\x7bthis.config.dir.upload\x7d/" ++ modelInstanceName ++ "\x60;"]
      ++ (ff.map fun field =>
          if field.fieldType = FieldType.List then
            "if (" ++ modelInstanceName ++ "." ++ field.fieldName ++ ") \x7b\n            for (let i = " ++
              modelInstanceName ++ "." ++ field.fieldName ++
              ".length; i--; ) \x7b\n                filesToBeDeleted.push(\x27$\x7bbaseDirectory\x7d/$\x7b" ++
              modelInstanceName ++ "." ++ field.fieldName ++ "[i]\x7d\x27);\n            \x7d\n        \x7d"
          else
            "filesToBeDeleted.push(\x60$\x7bbaseDirectory\x7d/$\x7b" ++ modelInstanceName ++ "." ++
              field.fieldName ++ "\x7d\x60);")
      ++ ["for (let i = filesToBeDeleted.length; i--;) \x7b\n            try \x7b\n                await FileUploader.checkAndDeleteFile(filesToBeDeleted[i]);\n            \x7d catch (error) \x7b\n                req.log(LogLevel.Warning, error.message, \"remove" ++
          modelName ++ "\", \"" ++ modelName ++ "Controller\");\n            \x7d\n        \x7d"]
  let ownerCheckCode :=
    if ownerChecks.length ≠ 0 then
      "\n        if (!isAdmin && (!result.items.length || " ++ String.intercalate " || " ownerChecks ++
        ")) \x7b\n            throw new DatabaseError(Err.Code.DBNoRecord, null);\n        \x7d"
    else ""
  getAuthUserCode sch model ++ "const id = this.retrieveId(req);\n        const result = await " ++
    modelName ++ ".find<I" ++ modelName ++ ">(id);" ++ ownerCheckCode ++ "\n        const " ++
    modelInstanceName ++ " = new " ++ modelName ++ "(result.items[0]);" ++
    String.intercalate "\n\t\t" deleteFileCode ++
    "\n        const dResult = await " ++ modelInstanceName ++ ".remove();\n        res.json(dResult);"

/-- Embeds `getUploadCode` (lines 397–437): the upload handler.  For one File
field the old file's deletion is awaited directly; for several, all deletions
are pushed into `delList` and jointly awaited via `Promise.all` before the
record update.  The method reads only `this.filesFields` and the model name
(its `// todo add conf & owner` is unimplemented). -/
def getUploadCode (sch : Schema) (model : String) : String :=
  let modelName := pascalCase model
  let modelInstanceName := camelCase modelName
  let fileNames := ((getFieldsByType sch model FieldType.File).getD []).map fun f => f.fieldName
  let code :=
    if fileNames.length = 1 then
      let f := fileNames.getD 0 ""
      "const oldFileName = " ++ modelInstanceName ++ "." ++ f ++ ";\n        " ++ modelInstanceName ++
        "." ++ f ++ " = upl." ++ f ++
        ";\n        if (oldFileName) \x7b\n            await FileUploader.checkAndDeleteFile(\x60$\x7bdestDirectory\x7d/$\x7boldFileName\x7d\x60);\n        \x7d"
    else
      "const delList: Array<Promise<string>> = [];" ++
      String.join (fileNames.map fun fn =>
        "\n        if (upl." ++ fn ++ ") \x7b\n            const old" ++ pascalCase fn ++ " = " ++
          modelInstanceName ++ "." ++ fn ++
          ";\n            delList.push(FileUploader.checkAndDeleteFile(\x60$\x7bdestDirectory\x7d/$\x7bold" ++
          pascalCase fn ++ "\x7d\x60)\n                .then(() => " ++ modelInstanceName ++ "." ++ fn ++
          " = upl." ++ fn ++ " as string));\n        \x7d") ++
      "\n        await Promise.all(delList);"
  "const id = this.retrieveId(req);\n        const destDirectory = join(this.config.dir.upload, \"" ++
    modelInstanceName ++ "\");\n        const result = await " ++ modelName ++ ".find<I" ++ modelName ++
    ">(id);\n        if (result.items.length !== 1) \x7b\n            throw new Err(Err.Code.DBRecordCount, \"" ++
    modelName ++ " not found\");\n        \x7d\n        const " ++ modelInstanceName ++ " = new " ++
    modelName ++ "(result.items[0]);\n        const uploader = new FileUploader<I" ++ modelName ++
    ">(true);\n        await uploader.parse(req);\n        const upl = await uploader.upload(destDirectory);\n        " ++
    code ++ "\n        const uResult = await " ++ modelInstanceName ++ ".update();\n        res.json(uResult);"

/-! ## ControllerGen: registry patching (`generate`, lines 85–103)

After writing the controller file, `generate` rewrites the central registry
`src/api/<version>/import.ts`: if `code.search(Placeholder.ExpressController)`
is truthy (i.e. the marker is NOT at index 0 — absence gives `-1`, which is
truthy), it returns early when the import statement is already present, and
otherwise splices an import line and a property binding in front of the two
placeholder markers and rewrites the file. -/

/-- Modelled from the spec: the `Placeholder.Import` insertion marker
(`gen/core/Placeholder.ts` is not among the given sources; §4.5 speaks of
"designated insertion markers").  A representative literal without regex
metacharacters, so `search` and `indexOf` agree. -/
def vestaImportMarker : String := "///<vesta:import/>"

/-- Modelled from the spec: the `Placeholder.ExpressController` insertion
marker, under the same modelling as `vestaImportMarker`. -/
def vestaExpressMarker : String := "///<vesta:expressController/>"

/-- The controller class name derived in `ControllerGen.init` (lines 107–108):
pascal-cased camel-cased name plus the `Controller` tail. -/
def controllerClassName (name : String) : String :=
  pascalCase (camelCase name) ++ "Controller"

/-- The import statement built on line 94 of `generate`; `relPath` stands for
the `genRelativePath` result (a filesystem helper outside the given sources). -/
def importCodeFor (name relPath : String) : String := "import \x7b" ++
  controllerClassName name ++ "\x7d from \"" ++ relPath ++ "/" ++
    controllerClassName name ++ "\";"

/-- The property binding built on line 98 of `generate`. -/
def embedCodeFor (name : String) : String :=
  camelCase name ++ ": " ++ controllerClassName name ++ ","

/-- Outcome of the registry-patch step of `generate`: the guard rejected
patching entirely (`noPatch`, marker at index 0), the early return on a
present import statement (`alreadyPresent`, no write), or a rewrite with the
new content. -/
inductive PatchOutcome
  | noPatch
  | alreadyPresent
  | wrote (newContent : List Char)
deriving DecidableEq

/-- Embeds the registry-patch step of `generate` (lines 91–102) on the
registry's character list. -/
def generateRegistryPatch (registry : List Char) (name relPath : String) : PatchOutcome :=
  if searchIsTruthy registry vestaExpressMarker.data then
    if (firstIdxL registry (importCodeFor name relPath).data).isSome then
      PatchOutcome.alreadyPresent
    else
      PatchOutcome.wrote
        (replaceFirstL
          (replaceFirstL registry vestaImportMarker.data
            ((importCodeFor name relPath).data ++ '\n' :: vestaImportMarker.data))
          vestaExpressMarker.data
          ((embedCodeFor name).data ++ '\n' :: '\t' :: '\t' :: vestaExpressMarker.data))
  else PatchOutcome.noPatch

/-- Registry-file content after one generation run: unchanged unless the patch
step rewrote it. -/
def registryAfterGen (registry : List Char) (name relPath : String) : List Char :=
  match generateRegistryPatch registry name relPath with
  | PatchOutcome.wrote c => c
  | _ => registry

/-- Decidable straddle-freedom: no nonempty proper tail-piece of `t` is
prefix-related to `pat`.  It rules out an occurrence of `t` being destroyed by
an insertion made immediately in front of an occurrence of `pat`. -/
def insertionSafe (t pat : List Char) : Bool :=
  (List.range t.length).all fun k =>
    k == 0 || (!(isPfx (t.drop k) pat) && !(isPfx pat (t.drop k)))

/-! ## ControllerGen: argument validation (`init`, lines 44–65) -/

/-- A parsed CLI option value as `ArgParser` delivers it: absent (`null`), a
boolean (flag given without `=value`), or a string. -/
inductive JsVal
  | vNull
  | vBool (b : Bool)
  | vStr (s : String)
deriving DecidableEq

/-- Outcome of `ControllerGen.init`: a logged configuration error (return
before any generator is constructed or file written), an uncaught `TypeError`
(from `config.model.toString()` on `null`), or proceeding to construct the
generator with the given model argument. -/
inductive InitResult
  | configError
  | typeErrorThrown
  | proceed (modelArg : String)
deriving DecidableEq

/-- Embeds `ControllerGen.init` (lines 44–65).  The name must be truthy and
match `/^[a-z]+$/i` — note the case-insensitive flag, so any ASCII letters are
accepted; then `config.model.toString()` is evaluated (throwing a `TypeError`
when the `--model` flag was absent and the parsed value is `null`) and compared
against the string `"true"` (flag given without `=`). -/
def controllerGenInit (name : Option String) (model : JsVal) : InitResult :=
  match name with
  | none => InitResult.configError
  | some s =>
    if s.data.isEmpty then InitResult.configError
    else if !(s.data.all Char.isAlpha) then InitResult.configError
    else
      match model with
      | JsVal.vNull => InitResult.typeErrorThrown
      | JsVal.vBool b =>
        if (if b then "true" else "false") == "true" then InitResult.configError
        else InitResult.proceed (if b then "true" else "false")
      | JsVal.vStr m =>
        if m == "true" then InitResult.configError else InitResult.proceed m

/-! ## Concrete schemas used to evaluate the generator -/

/-- A plain text field. -/
def fText (n : String) : FieldMeta := { fieldName := n, fieldType := FieldType.Text }

/-- A confidential text field. -/
def fConf (n : String) : FieldMeta :=
  { fieldName := n, fieldType := FieldType.Text, isConfidential := true }

/-- An owner-verified text field. -/
def fOwner (n : String) : FieldMeta :=
  { fieldName := n, fieldType := FieldType.Text, isOwnerVerified := true }

/-- A File-typed field. -/
def fFile (n : String) : FieldMeta := { fieldName := n, fieldType := FieldType.File }

/-- Schema: model `User` with one confidential field `password` and no relation
fields. -/
def schConf : Schema :=
  [{ name := "User", fields := [fText "name", fConf "password"] }]

/-- Schema: model `Task` with two owner-verified fields. -/
def schOwner2 : Schema :=
  [{ name := "Task", fields := [fOwner "ownerId", fOwner "userId", fText "title"] }]

/-- Schema: model `Task` with a single owner-verified field `user`. -/
def schOwner1 : Schema :=
  [{ name := "Task", fields := [fOwner "user", fText "title"] }]

/-- Schema: model `User` with a single File field `avatar`. -/
def schFile1 : Schema :=
  [{ name := "User", fields := [fText "name", fFile "avatar"] }]

/-- Schema: model `Post` with two File fields. -/
def schFile2 : Schema :=
  [{ name := "Post", fields := [fFile "image", fFile "thumbnail", fText "title"] }]

/-- Schema: model `User` with a File field, a confidential field and an
owner-verified field (a non-trivial SecurityProfile). -/
def schSecArm : Schema :=
  [{ name := "User",
     fields := [fFile "avatar", fConf "password", fOwner "user"] }]

/-- Schema: as `schSecArm` but with an empty SecurityProfile (no confidential
and no owner-verified flags); the File fields are identical. -/
def schSecDisarm : Schema :=
  [{ name := "User",
     fields := [fFile "avatar", fText "password", fText "user"] }]

/-- A registry file content in the designated-marker layout of §4.5: both
placeholder markers present, the express-controller marker not at index 0. -/
def regWellFormed : List Char :=
  ("///<vesta:import/>\nexport const exported = \x7b\n\t\t///<vesta:expressController/>\n\x7d;").data

/-- A registry file containing only the import marker (the express-controller
placeholder is absent, so `search` returns `-1`, which is truthy). -/
def regOnlyImportMarker : List Char :=
  ("///<vesta:import/>\nexport const exported = nothing;").data

/-- A registry file with no markers at all. -/
def regNoMarkers : List Char := ("export const exported = nothing;").data

/-- A registry file that begins with the express-controller marker (index 0,
falsy `search` result). -/
def regExprAtZero : List Char :=
  ("///<vesta:expressController/>\nexport const exported = nothing;").data

/-- A registry file in which the import statement for the `profile` controller
is already present. -/
def regAlreadyPatched : List Char :=
  (importCodeFor "profile" "./controller").data ++ '\n' :: regWellFormed

/-! ## Lemmas about the character-list machinery -/

theorem isPfx_iff (p : List Char) : ∀ s, isPfx p s = true ↔ ∃ t, p ++ t = s := by
  induction p with
  | nil => intro s; simp [isPfx]
  | cons a as ih =>
    intro s
    cases s with
    | nil => simp [isPfx]
    | cons b bs =>
      simp only [isPfx, Bool.and_eq_true, beq_iff_eq, ih bs]
      constructor
      · rintro ⟨rfl, t, rfl⟩
        exact ⟨t, rfl⟩
      · rintro ⟨t, h⟩
        rw [List.cons_append] at h
        injection h with h1 h2
        exact ⟨h1, t, h2⟩

theorem occursIn_iff (pat : List Char) : ∀ s, occursIn pat s = true ↔ ∃ x y, s = x ++ pat ++ y := by
  intro s
  induction s with
  | nil =>
    simp only [occursIn, isPfx_iff]
    constructor
    · rintro ⟨t, h⟩
      obtain ⟨hp, ht⟩ := List.append_eq_nil.mp h
      exact ⟨[], [], by simp [hp, ht]⟩
    · rintro ⟨x, y, h⟩
      have hx := h.symm
      obtain ⟨h1, hy⟩ := List.append_eq_nil.mp hx
      obtain ⟨hx2, hp⟩ := List.append_eq_nil.mp h1
      exact ⟨[], by simp [hp]⟩
  | cons c cs ih =>
    simp only [occursIn, Bool.or_eq_true, isPfx_iff, ih]
    constructor
    · rintro (⟨t, h⟩ | ⟨x, y, h⟩)
      · exact ⟨[], t, by simp [h]⟩
      · exact ⟨c :: x, y, by simp [h]⟩
    · rintro ⟨x, y, h⟩
      cases x with
      | nil => exact Or.inl ⟨y, by simpa using h.symm⟩
      | cons c' x' =>
        simp only [List.cons_append, List.cons.injEq] at h
        exact Or.inr ⟨x', y, h.2⟩

theorem occursIn_of_parts (pat x y s : List Char) (h : s = x ++ pat ++ y) :
    occursIn pat s = true := (occursIn_iff pat s).2 ⟨x, y, h⟩

theorem replaceFirst_of_not_occurs {pat : List Char} (rep : List Char) :
    ∀ {s : List Char}, occursIn pat s = false → replaceFirstL s pat rep = s := by
  intro s
  induction s with
  | nil => intro _; rfl
  | cons c cs ih =>
    intro h
    simp only [occursIn, Bool.or_eq_false_iff] at h
    simp only [replaceFirstL, h.1, Bool.false_eq_true, if_false]
    rw [ih h.2]

theorem replaceFirst_decomp {pat : List Char} (rep : List Char) (hp : pat ≠ []) :
    ∀ {s : List Char}, occursIn pat s = true →
      ∃ a b, s = a ++ pat ++ b ∧ replaceFirstL s pat rep = a ++ rep ++ b := by
  intro s
  induction s with
  | nil =>
    intro h
    simp only [occursIn, isPfx_iff] at h
    obtain ⟨t, ht⟩ := h
    exact absurd (List.append_eq_nil.mp ht).1 hp
  | cons c cs ih =>
    intro h
    by_cases hpre : isPfx pat (c :: cs) = true
    · obtain ⟨t, ht⟩ := (isPfx_iff pat (c :: cs)).1 hpre
      refine ⟨[], t, by simp [ht.symm], ?_⟩
      simp only [replaceFirstL, hpre, if_true, List.nil_append]
      rw [← ht, List.drop_left]
    · have h2 : occursIn pat cs = true := by
        simp only [occursIn, Bool.or_eq_true] at h
        exact h.resolve_left hpre
      obtain ⟨a, b, hs, hr⟩ := ih h2
      refine ⟨c :: a, b, by simp [hs], ?_⟩
      simp only [replaceFirstL, hpre, Bool.false_eq_true, if_false]
      rw [hr]
      simp

theorem pfx_append_cases {v w p q : List Char} (h : v ++ w = p ++ q) :
    (∃ r, v ++ r = p) ∨ ∃ r, p ++ r = v := by
  rcases List.append_eq_append_iff.1 h with ⟨m, hp, _⟩ | ⟨m, hv, _⟩
  · exact Or.inl ⟨m, hp.symm⟩
  · exact Or.inr ⟨m, hv.symm⟩

theorem occurs_insert_mid {t a b : List Char} (x : List Char)
    (h : occursIn t (a ++ b) = true)
    (hsf : ∀ u v, t = u ++ v → u ≠ [] → v ≠ [] → ∀ w, v ++ w ≠ b) :
    occursIn t (a ++ x ++ b) = true := by
  obtain ⟨X, Y, hXY⟩ := (occursIn_iff t (a ++ b)).1 h
  have hXY' : X ++ (t ++ Y) = a ++ b := by simpa [List.append_assoc] using hXY.symm
  rcases List.append_eq_append_iff.1 hXY' with ⟨m, ha, hm⟩ | ⟨m, hX, hb⟩
  · -- a = X ++ m and t ++ Y = m ++ b
    rcases List.append_eq_append_iff.1 hm with ⟨n, hmn, hY⟩ | ⟨n, ht, hbn⟩
    · -- m = t ++ n : the occurrence lies inside a
      refine occursIn_of_parts t X (n ++ x ++ b) _ ?_
      simp [ha, hmn, List.append_assoc]
    · -- t = m ++ n and b = n ++ Y
      cases hm' : m with
      | nil =>
        -- occurrence starts exactly at the insertion point: it lies inside b
        subst hm'
        simp only [List.nil_append] at ht
        refine occursIn_of_parts t (a ++ x) Y _ ?_
        simp [hbn, ← ht, List.append_assoc]
      | cons mh mt =>
        cases hn' : n with
        | nil =>
          -- occurrence ends exactly at the insertion point: it lies inside a
          subst hn'
          simp only [List.append_nil] at ht
          refine occursIn_of_parts t X (x ++ b) _ ?_
          simp [ha, ← hm', ← ht, List.append_assoc]
        | cons nh nt =>
          exact absurd hbn.symm
            (hsf m n ht (by simp [hm']) (by simp [hn']) Y)
  · -- X = a ++ m and b = m ++ t ++ Y : the occurrence lies inside b
    refine occursIn_of_parts t (a ++ x ++ m) Y _ ?_
    simp [hb, List.append_assoc]

theorem firstIdx_some_zero_iff (s pat : List Char) :
    firstIdxL s pat = some 0 ↔ isPfx pat s = true := by
  cases s with
  | nil =>
    by_cases h : isPfx pat [] = true <;> simp [firstIdxL, h]
  | cons c cs =>
    by_cases h : isPfx pat (c :: cs) = true
    · simp [firstIdxL, h]
    · rw [show firstIdxL (c :: cs) pat =
          if isPfx pat (c :: cs) then some 0 else (firstIdxL cs pat).map (· + 1) from rfl,
        if_neg (by simpa using h)]
      constructor
      · intro hmap
        obtain ⟨n, _, hn⟩ := Option.map_eq_some'.1 hmap
        exact absurd hn (Nat.succ_ne_zero n)
      · intro hc
        exact absurd hc h

theorem firstIdx_isSome_eq (pat : List Char) :
    ∀ s, (firstIdxL s pat).isSome = occursIn pat s := by
  intro s
  induction s with
  | nil => by_cases h : isPfx pat [] = true <;> simp [firstIdxL, occursIn, h]
  | cons c cs ih =>
    by_cases h : isPfx pat (c :: cs) = true
    · simp [firstIdxL, occursIn, h]
    · simp [firstIdxL, occursIn, h, Option.isSome_map', ih]

theorem searchTruthy_of_not_occurs {s pat : List Char} (h : occursIn pat s = false) :
    searchIsTruthy s pat = true := by
  have : (firstIdxL s pat).isSome = false := by rw [firstIdx_isSome_eq, h]
  unfold searchIsTruthy
  cases hf : firstIdxL s pat with
  | none => rfl
  | some n => rw [hf] at this; simp at this

theorem searchTruthy_false_iff (s pat : List Char) :
    searchIsTruthy s pat = false ↔ isPfx pat s = true := by
  unfold searchIsTruthy
  rw [← firstIdx_some_zero_iff]
  cases hf : firstIdxL s pat with
  | none => simp
  | some n => cases n <;> simp

/-! ## Lemmas about slash collapsing -/

theorem collapseGo_nil (b : Bool) : collapseGo b [] = [] := rfl

theorem collapseGo_true_slash (r : List Char) : collapseGo true ('/' :: r) = collapseGo true r := rfl

theorem collapseGo_false_slash (r : List Char) :
    collapseGo false ('/' :: r) = '/' :: collapseGo true r := rfl

theorem collapseGo_cons_ne (b : Bool) {c : Char} (hc : ¬ c = '/') (r : List Char) :
    collapseGo b (c :: r) = c :: collapseGo false r := by
  cases b <;> simp [collapseGo, hc]

theorem collapseGo_slash (b : Bool) (r : List Char) :
    collapseGo b ('/' :: r) =
      (if b then collapseGo true r else '/' :: collapseGo true r) := by
  cases b
  · rw [collapseGo_false_slash, if_neg (by simp)]
  · rw [collapseGo_true_slash, if_pos rfl]

theorem collapseGo_slashFree : ∀ {e : List Char}, (∀ c ∈ e, c ≠ '/') → ∀ b, collapseGo b e = e := by
  intro e
  induction e with
  | nil => intro _ b; rfl
  | cons c r ih =>
    intro he b
    have hc : ¬ c = '/' := he c (List.mem_cons_self c r)
    rw [collapseGo_cons_ne b hc, ih fun d hd => he d (List.mem_cons_of_mem c hd)]

theorem collapseGo_true_head (l : List Char) : (collapseGo true l).head? ≠ some '/' := by
  induction l with
  | nil => simp [collapseGo_nil]
  | cons c r ih =>
    by_cases hc : c = '/'
    · subst hc
      rw [collapseGo_true_slash]
      exact ih
    · rw [collapseGo_cons_ne true hc]
      simpa using hc

theorem collapseGo_chain : ∀ (l : List Char) (b : Bool),
    List.Chain' (fun a c => ¬(a = '/' ∧ c = '/')) (collapseGo b l) := by
  intro l
  induction l with
  | nil => intro b; simp [collapseGo_nil]
  | cons c r ih =>
    intro b
    by_cases hc : c = '/'
    · subst hc
      cases b with
      | true =>
        rw [collapseGo_true_slash]
        exact ih true
      | false =>
        rw [collapseGo_false_slash, List.chain'_cons']
        refine ⟨?_, ih true⟩
        intro y hy hcon
        exact collapseGo_true_head r (by rw [Option.mem_def] at hy; rw [hy, hcon.2])
    · rw [collapseGo_cons_ne b hc, List.chain'_cons']
      exact ⟨fun y _ => fun ⟨hc2, _⟩ => hc hc2, ih false⟩

theorem chain_no_double {l : List Char}
    (h : List.Chain' (fun a c => ¬(a = '/' ∧ c = '/')) l) :
    occursIn ('/' :: '/' :: []) l = false := by
  cases hocc : occursIn ('/' :: '/' :: []) l with
  | false => rfl
  | true =>
    exfalso
    obtain ⟨x, y, hxy⟩ := (occursIn_iff _ l).1 hocc
    rw [hxy, List.append_assoc] at h
    have h2 := (List.chain'_append.1 h).2.1
    exact (List.chain'_cons.1 h2).1 ⟨rfl, rfl⟩

theorem collapse_append_tail {e : List Char} (he : ∀ c ∈ e, c ≠ '/') :
    ∀ (l : List Char) (b : Bool),
      collapseGo b (l ++ '/' :: e) = collapseGo b (l ++ ['/']) ++ e := by
  intro l
  induction l with
  | nil =>
    intro b
    cases b with
    | true =>
      show collapseGo true ('/' :: e) = collapseGo true ['/'] ++ e
      rw [collapseGo_true_slash, collapseGo_slashFree he true]
      rfl
    | false =>
      show collapseGo false ('/' :: e) = collapseGo false ['/'] ++ e
      rw [collapseGo_false_slash, collapseGo_slashFree he true]
      rfl
  | cons c l' ih =>
    intro b
    by_cases hc : c = '/'
    · subst hc
      cases b with
      | true =>
        show collapseGo true ('/' :: (l' ++ '/' :: e)) = collapseGo true ('/' :: (l' ++ ['/'])) ++ e
        rw [collapseGo_true_slash, collapseGo_true_slash]
        exact ih true
      | false =>
        show collapseGo false ('/' :: (l' ++ '/' :: e)) = collapseGo false ('/' :: (l' ++ ['/'])) ++ e
        rw [collapseGo_false_slash, collapseGo_false_slash, ih true, List.cons_append]
    · show collapseGo b (c :: (l' ++ '/' :: e)) = collapseGo b (c :: (l' ++ ['/'])) ++ e
      rw [collapseGo_cons_ne b hc, collapseGo_cons_ne b hc, ih false, List.cons_append]

theorem collapseGo_false_ne_nil {l : List Char} (h : l ≠ []) : collapseGo false l ≠ [] := by
  cases l with
  | nil => exact absurd rfl h
  | cons c r =>
    by_cases hc : c = '/'
    · subst hc
      rw [collapseGo_false_slash]
      simp
    · rw [collapseGo_cons_ne false hc]
      simp

theorem collapse_ends_slash :
    ∀ (l : List Char) (b : Bool),
      collapseGo b (l ++ ['/']) = [] ∨ ∃ q, collapseGo b (l ++ ['/']) = q ++ ['/'] := by
  intro l
  induction l with
  | nil =>
    intro b
    cases b with
    | true => exact Or.inl (by decide)
    | false => exact Or.inr ⟨[], by decide⟩
  | cons c l' ih =>
    intro b
    by_cases hc : c = '/'
    · subst hc
      cases b with
      | true =>
        show collapseGo true ('/' :: (l' ++ ['/'])) = [] ∨ _
        rw [collapseGo_true_slash]
        rcases ih true with h | ⟨q, hq⟩
        · exact Or.inl h
        · exact Or.inr ⟨q, hq⟩
      | false =>
        refine Or.inr ?_
        show ∃ q, collapseGo false ('/' :: (l' ++ ['/'])) = q ++ ['/']
        rw [collapseGo_false_slash]
        rcases ih true with h | ⟨q, hq⟩
        · exact ⟨[], by rw [h]; rfl⟩
        · exact ⟨'/' :: q, by rw [hq, List.cons_append]⟩
    · refine Or.inr ?_
      show ∃ q, collapseGo b (c :: (l' ++ ['/'])) = q ++ ['/']
      rw [collapseGo_cons_ne b hc]
      rcases ih false with h | ⟨q, hq⟩
      · exact absurd h (collapseGo_false_ne_nil (by simp))
      · exact ⟨c :: q, by rw [hq, List.cons_append]⟩

theorem collapse_false_ends_slash (l : List Char) :
    ∃ q, collapseGo false (l ++ ['/']) = q ++ ['/'] := by
  rcases collapse_ends_slash l false with h | h
  · exact absurd h (collapseGo_false_ne_nil (by simp))
  · exact h

theorem leadingSlash_shape (r : List Char) : ∃ t, leadingSlash r = '/' :: t := by
  unfold leadingSlash
  by_cases h : r.head? = some '/'
  · rw [if_pos h]
    cases r with
    | nil => simp at h
    | cons c cs =>
      simp only [List.head?_cons, Option.some.injEq] at h
      exact ⟨cs, by rw [h]⟩
  · rw [if_neg h]
    exact ⟨r, rfl⟩

/-! ## Lemmas about the schema inspectors -/

theorem filter_isEmpty_eq_not_any (p : FieldMeta → Bool) (l : List FieldMeta) :
    (l.filter p).isEmpty = !(l.any p) := by
  induction l with
  | nil => rfl
  | cons a l ih =>
    rw [List.filter_cons, List.any_cons]
    cases hp : p a
    · simpa using ih
    · simp

theorem getFieldsByType_isSome (sch : Schema) (model : String) (t : FieldType) :
    (getFieldsByType sch model t).isSome = (modelFields sch model).any (fieldMatchesType t) := by
  simp only [getFieldsByType, filter_isEmpty_eq_not_any]
  cases h : (modelFields sch model).any (fieldMatchesType t) <;> simp [h]

/-! ## Claim theorems -/

/-- C1 (code bug): for the model `User` whose `confidentialFields` is the
non-empty list `["password"]` (and which has no relation fields), the
confidentiality-redaction code emitted by `getConfFieldRemovingCode` is empty
in both the single-record and the collection form — because the source tests
`if (!this.confidentialFields.length)` before pushing the removers, the loop
body is reachable only when the list is empty — and consequently none of the
four response-producing handlers (detail read, list read, create, update)
contains any `delete` statement, contradicting the claim that every such
handler deletes exactly the confidential field names from every result item. -/
theorem confidential_redaction_never_emitted_bug :
    getConfidentialFields schConf "User" = ["password"]
    ∧ getConfFieldRemovingCode schConf "User" true = ""
    ∧ getConfFieldRemovingCode schConf "User" false = ""
    ∧ containsSub (getQueryCodeForSingleInstance schConf "User") "delete" = false
    ∧ containsSub (getQueryCodeForMultiInstance schConf "User") "delete" = false
    ∧ containsSub (getInsertCode schConf "User") "delete" = false
    ∧ containsSub (getUpdateCode schConf "User") "delete" = false := by
  refine ⟨by decide, by decide, by decide, by decide, by decide, by decide, by decide⟩

/-- C3 (code bug): for the model `Task` with the two owner-verified fields
`ownerId` and `userId`, the single-record read handler and the delete handler's
ownership guard emit the comparison
`result.items[0].ownerId,userId !== authUser.id` — the owner-check loop
interpolates the whole `ownerVerifiedFields` array (comma-joined by
JavaScript) instead of the element `[i]` — and no individual comparison of
either field against `authUser.id` appears, contradicting the claim that each
owner-verified field is compared individually. -/
theorem owner_check_array_interpolation_bug :
    getOwnerVerifiedFields schOwner2 "Task" = ["ownerId", "userId"]
    ∧ containsSub (getQueryCodeForSingleInstance schOwner2 "Task")
        "result.items[0].ownerId,userId !== authUser.id" = true
    ∧ containsSub (getQueryCodeForSingleInstance schOwner2 "Task")
        "result.items[0].userId !== authUser.id" = false
    ∧ containsSub (getQueryCodeForSingleInstance schOwner2 "Task")
        "result.items[0].ownerId !== authUser.id" = false
    ∧ containsSub (getDeleteCode schOwner2 "Task")
        "result.items[0].ownerId,userId !== authUser.id" = true
    ∧ containsSub (getDeleteCode schOwner2 "Task")
        "result.items[0].userId !== authUser.id" = false := by
  refine ⟨by decide, by decide, by decide, by decide, by decide, by decide⟩

/-- C4 (counterexample): for the model `User` with the single File field
`avatar`, the emitted upload handler awaits the old file's deletion directly
and contains no `try`, no `catch` and no logging construct whatsoever, so a
deletion failure is neither caught nor logged — it propagates and aborts the
handler — refuting the claim that for a single File field the prior-file
deletion failure is "logged, not fatal, and does not block the response". -/
theorem upload_single_file_deletion_unguarded_cex :
    hasFileField schFile1 "User" = true
    ∧ containsSub (getUploadCode schFile1 "User") "await FileUploader.checkAndDeleteFile" = true
    ∧ containsSub (getUploadCode schFile1 "User") "try" = false
    ∧ containsSub (getUploadCode schFile1 "User") "catch" = false
    ∧ containsSub (getUploadCode schFile1 "User") "log" = false := by
  refine ⟨by decide, by decide, by decide, by decide, by decide⟩

/-- C4 (amended): in the emitted upload handler, prior-file deletion is NOT
failure-isolated.  For a single File field (`User.avatar`) the deletion is
awaited directly with no guard or logging, so a rejection aborts the handler.
For several File fields (`Post.image`, `Post.thumbnail`) every deletion is
started eagerly, pushed into `delList`, and jointly awaited via
`Promise.all` — which rejects on the first failure, aborting the handler and
skipping the record update — with no `catch` and no `allSettled`; the record
update is emitted strictly after the joint await. -/
theorem upload_deletion_not_failure_isolated :
    (containsSub (getUploadCode schFile1 "User")
        "if (oldFileName) \x7b\n            await FileUploader.checkAndDeleteFile" = true
     ∧ containsSub (getUploadCode schFile1 "User") "catch" = false
     ∧ containsSub (getUploadCode schFile1 "User") "req.log" = false)
    ∧ (containsSub (getUploadCode schFile2 "Post") "delList.push(FileUploader.checkAndDeleteFile" = true
       ∧ containsSub (getUploadCode schFile2 "Post") "await Promise.all(delList);" = true
       ∧ containsSub (getUploadCode schFile2 "Post") "catch" = false
       ∧ containsSub (getUploadCode schFile2 "Post") "allSettled" = false
       ∧ emittedBefore (getUploadCode schFile2 "Post")
           "await Promise.all(delList);" "const uResult = await post.update();" = true) := by
  refine ⟨⟨by decide, by decide, by decide⟩,
    by decide, by decide, by decide, by decide, by decide⟩

/-- C5 (code bug): for the model `Task` with the owner-verified field `user`,
the emitted update handler (a) force-assigns `task.user = authUser.id;` before
validation, (b) places its only ownership comparison `task.user !==
authUser.id` — against the request-body instance, which the assignment just
made equal, not against the stored record `result.items[0]` — after the
validation throw, and (c) performs the persistence call last; so for a
non-admin request violating both ownership and validation the
`ValidationError` is thrown first and the stored record's ownership is never
effectively re-checked, contradicting the claimed owner-check-first order. -/
theorem update_handler_order_bug :
    getOwnerVerifiedFields schOwner1 "Task" = ["user"]
    ∧ containsSub (getUpdateCode schOwner1 "Task") "task.user = authUser.id;" = true
    ∧ containsSub (getUpdateCode schOwner1 "Task") "task.user !== authUser.id" = true
    ∧ containsSub (getUpdateCode schOwner1 "Task") "result.items[0]" = false
    ∧ emittedBefore (getUpdateCode schOwner1 "Task")
        "task.user = authUser.id;" "const validationError" = true
    ∧ emittedBefore (getUpdateCode schOwner1 "Task")
        "throw new ValidationError" "task.user !== authUser.id" = true
    ∧ emittedBefore (getUpdateCode schOwner1 "Task")
        "task.user !== authUser.id" ".update<ITask>" = true := by
  refine ⟨by decide, by decide, by decide, by decide, by decide, by decide, by decide⟩

/-- C9 (confirmed): the emitted upload-handler text depends on the schema only
through the model's File-typed field set — the `SecurityProfile`
(`confidentialFields`, `ownerVerifiedFields`) cannot influence it, so the
upload route performs no confidentiality redaction and no ownership or
authenticated-user check. -/
theorem upload_code_independent_of_security_profile (sch₁ sch₂ : Schema) (model : String)
    (h : getFieldsByType sch₁ model FieldType.File = getFieldsByType sch₂ model FieldType.File) :
    getUploadCode sch₁ model = getUploadCode sch₂ model := by
  unfold getUploadCode
  rw [h]

/-- Witness for C9: two `User` models differing exactly in the `password`
confidentiality flag and the `user` owner-verification flag (same File fields)
produce identical upload-handler text. -/
theorem upload_code_independent_of_security_profile_witness :
    getFieldsByType schSecArm "User" FieldType.File
      = getFieldsByType schSecDisarm "User" FieldType.File
    ∧ getConfidentialFields schSecArm "User" ≠ getConfidentialFields schSecDisarm "User"
    ∧ getOwnerVerifiedFields schSecArm "User" ≠ getOwnerVerifiedFields schSecDisarm "User"
    ∧ getUploadCode schSecArm "User" = getUploadCode schSecDisarm "User" :=
  ⟨by decide, by decide, by decide,
    upload_code_independent_of_security_profile schSecArm schSecDisarm "User" (by decide)⟩

/-- C8 (confirmed): for any valid controller name, invoking `init` with no
`--model` flag (parsed value `null`) evaluates `config.model.toString()` on
`null` and throws a `TypeError` before any generator is constructed: the
result is `typeErrorThrown`, never `proceed`, although the help text
advertises model-less usage. -/
theorem missing_model_flag_type_error (s : String)
    (h1 : s.data.isEmpty = false) (h2 : s.data.all Char.isAlpha = true) :
    controllerGenInit (some s) JsVal.vNull = InitResult.typeErrorThrown := by
  simp [controllerGenInit, h1, h2]

/-- Witness for C8 at the help text's own example name `simple`. -/
theorem missing_model_flag_type_error_witness :
    controllerGenInit (some "simple") JsVal.vNull = InitResult.typeErrorThrown :=
  missing_model_flag_type_error "simple" (by decide) (by decide)

/-- C7 (counterexample): the name `Profile` contains an upper-case letter and
therefore does not match `^[a-z]+$`, yet `init` accepts it and proceeds — the
source regex carries the case-insensitive `i` flag — refuting the claim that
any name not matching `^[a-z]+$` aborts generation. -/
theorem uppercase_name_accepted_cex :
    controllerGenInit (some "Profile") (JsVal.vStr "User") = InitResult.proceed "User" := by
  decide

/-- C7 (amended): the controller name is validated against `/^[a-z]+$/i`
(case-insensitive): a missing name, an empty name, or a name containing any
non-letter character (such as the digit in `profile2`) aborts generation with
a configuration error before any generator is constructed or file written;
names consisting of ASCII letters of either case are accepted. -/
theorem invalid_controller_name_aborts (name : Option String) (model : JsVal)
    (h : name = none ∨ name = some "" ∨ ∃ s, name = some s ∧ s.data.all Char.isAlpha = false) :
    controllerGenInit name model = InitResult.configError := by
  rcases h with h | h | ⟨s, hs, hall⟩
  · subst h
    rfl
  · subst h
    rfl
  · subst hs
    by_cases he : s.data.isEmpty
    · simp [controllerGenInit, he]
    · simp [controllerGenInit, he, hall]

/-- Witness for C7's amended claim at the name `profile2`. -/
theorem invalid_controller_name_aborts_witness :
    controllerGenInit (some "profile2") (JsVal.vStr "User") = InitResult.configError :=
  invalid_controller_name_aborts (some "profile2") (JsVal.vStr "User")
    (Or.inr (Or.inr ⟨"profile2", rfl, by decide⟩))

/-- C2 (confirmed): for every schema, model, route base and controller name,
the emitted route table is exactly the §4.2 table — GET `p/count` (Read), GET
`p/:id` (Read), GET `p` (Read), POST `p` (Add), PUT `p` (Edit), DELETE
`p/:id` (Delete), in this order, plus POST `p/file/:id` (Edit) if and only if
the model has a File-typed field (7 routes with, 6 without) — where `p`, the
normalized routing path, begins with a slash, contains no repeated slashes,
and (for a slash-free camel-cased name) ends with `/` followed by the
camel-cased controller name as its final segment. -/
theorem route_table_matches_spec (sch : Schema) (model route name : String) :
    addCRUDRoutes sch model (normalizeRoutingPath route name)
        = specRouteTable (normalizeRoutingPath route name) (hasFileField sch model)
    ∧ (addCRUDRoutes sch model (normalizeRoutingPath route name)).length
        = (if hasFileField sch model then 7 else 6)
    ∧ (normalizeRoutingPath route name).data.head? = some '/'
    ∧ occursIn ('/' :: '/' :: []) (normalizeRoutingPath route name).data = false
    ∧ ((∀ c ∈ (camelCase name).data, c ≠ '/') →
        ∃ q, (normalizeRoutingPath route name).data = q ++ '/' :: (camelCase name).data) := by
  have hdata : (normalizeRoutingPath route name).data
      = collapseGo false (leadingSlash route.data ++ '/' :: (camelCase name).data) := rfl
  have hiff : (getFieldsByType sch model FieldType.File).isSome = hasFileField sch model :=
    getFieldsByType_isSome sch model FieldType.File
  have htable : addCRUDRoutes sch model (normalizeRoutingPath route name)
      = specRouteTable (normalizeRoutingPath route name) (hasFileField sch model) := by
    unfold addCRUDRoutes specRouteTable
    cases hft : getFieldsByType sch model FieldType.File with
    | none =>
      rw [hft] at hiff
      simp only [Option.isSome_none] at hiff
      rw [← hiff]
      simp
    | some l =>
      rw [hft] at hiff
      simp only [Option.isSome_some] at hiff
      rw [← hiff]
      simp
  refine ⟨htable, ?_, ?_, ?_, ?_⟩
  · rw [htable]
    unfold specRouteTable
    cases h : hasFileField sch model <;> simp
  · rw [hdata]
    obtain ⟨t, ht⟩ := leadingSlash_shape route.data
    rw [ht, List.cons_append, collapseGo_false_slash]
    rfl
  · rw [hdata]
    exact chain_no_double (collapseGo_chain _ false)
  · intro hfree
    rw [hdata]
    obtain ⟨q, hq⟩ := collapse_false_ends_slash (leadingSlash route.data)
    refine ⟨q, ?_⟩
    rw [collapse_append_tail hfree (leadingSlash route.data) false, hq, List.append_assoc]
    rfl

/-- Witness for C2 at the spec's §8 scenario (`route="account"`, name
`profile`) over a model with a File field: the seven routes of §4.2 and the
path-shape properties, concretely. -/
theorem route_table_matches_spec_witness :
    addCRUDRoutes schFile1 "User" (normalizeRoutingPath "account" "profile")
        = specRouteTable (normalizeRoutingPath "account" "profile") true
    ∧ normalizeRoutingPath "account" "profile" = "/account/profile"
    ∧ (∃ q, (normalizeRoutingPath "account" "profile").data
        = q ++ '/' :: (camelCase "profile").data) := by
  have h := route_table_matches_spec schFile1 "User" "account" "profile"
  refine ⟨?_, by decide, h.2.2.2.2 (by decide)⟩
  have hfile : hasFileField schFile1 "User" = true := by decide
  rw [← hfile]
  exact h.1

/-- C6 (confirmed): the registry-patch step of `generate` is idempotent on any
registry that contains the designated import marker: after one generation run,
a second run leaves the registry byte-identical — and whenever the import
statement for the controller is already present, the patch step writes nothing
at all, duplicating neither the import nor the property binding.  The
`insertionSafe` side condition (satisfied by the actual generated import
statements, see the witness) rules out degenerate overlaps between the import
statement and the express-controller marker. -/
theorem registration_patch_idempotent (registry : List Char) (name relPath : String)
    (hMarker : occursIn vestaImportMarker.data registry = true)
    (hSafe : insertionSafe (importCodeFor name relPath).data vestaExpressMarker.data = true) :
    registryAfterGen (registryAfterGen registry name relPath) name relPath
      = registryAfterGen registry name relPath
    ∧ ((firstIdxL registry (importCodeFor name relPath).data).isSome = true →
        registryAfterGen registry name relPath = registry) := by
  have hImpNe : vestaImportMarker.data ≠ [] := by decide
  have hExprNe : vestaExpressMarker.data ≠ [] := by decide
  constructor
  · by_cases hs : searchIsTruthy registry vestaExpressMarker.data = true
    · by_cases hic : (firstIdxL registry (importCodeFor name relPath).data).isSome = true
      · have h1 : registryAfterGen registry name relPath = registry := by
          unfold registryAfterGen generateRegistryPatch
          rw [if_pos hs, if_pos hic]
        rw [h1]
        exact h1
      · -- the run writes; show the written content already holds the import
        have hafter : registryAfterGen registry name relPath
            = replaceFirstL
                (replaceFirstL registry vestaImportMarker.data
                  ((importCodeFor name relPath).data ++ '\n' :: vestaImportMarker.data))
                vestaExpressMarker.data
                ((embedCodeFor name).data ++ '\n' :: '\t' :: '\t' :: vestaExpressMarker.data) := by
          unfold registryAfterGen generateRegistryPatch
          rw [if_pos hs, if_neg hic]
        have hocc_s1 : occursIn (importCodeFor name relPath).data
            (replaceFirstL registry vestaImportMarker.data
              ((importCodeFor name relPath).data ++ '\n' :: vestaImportMarker.data)) = true := by
          obtain ⟨a, b, _, hrep⟩ :=
            replaceFirst_decomp
              ((importCodeFor name relPath).data ++ '\n' :: vestaImportMarker.data) hImpNe hMarker
          rw [hrep]
          exact occursIn_of_parts _ a (('\n' :: vestaImportMarker.data) ++ b) _
            (by simp [List.append_assoc])
        have hocc_c : occursIn (importCodeFor name relPath).data
            (replaceFirstL
              (replaceFirstL registry vestaImportMarker.data
                ((importCodeFor name relPath).data ++ '\n' :: vestaImportMarker.data))
              vestaExpressMarker.data
              ((embedCodeFor name).data ++ '\n' :: '\t' :: '\t' :: vestaExpressMarker.data)) = true := by
          by_cases hE : occursIn vestaExpressMarker.data
              (replaceFirstL registry vestaImportMarker.data
                ((importCodeFor name relPath).data ++ '\n' :: vestaImportMarker.data)) = true
          · obtain ⟨a', b', hs1ab, hrep2⟩ :=
              replaceFirst_decomp
                ((embedCodeFor name).data ++ '\n' :: '\t' :: '\t' :: vestaExpressMarker.data)
                hExprNe hE
            rw [hrep2]
            have hview : a' ++ ((embedCodeFor name).data ++ '\n' :: '\t' :: '\t' :: vestaExpressMarker.data) ++ b'
                = a' ++ ((embedCodeFor name).data ++ ['\n', '\t', '\t'])
                    ++ (vestaExpressMarker.data ++ b') := by
              simp [List.append_assoc]
            rw [hview]
            apply occurs_insert_mid
            · have hsame : a' ++ (vestaExpressMarker.data ++ b')
                  = replaceFirstL registry vestaImportMarker.data
                      ((importCodeFor name relPath).data ++ '\n' :: vestaImportMarker.data) := by
                rw [hs1ab]
                simp [List.append_assoc]
              rw [hsame]
              exact hocc_s1
            · intro u v huv hu hv w hw
              have hk : ((importCodeFor name relPath).data.drop u.length) = v := by
                rw [huv, List.drop_left]
              have hklt : u.length < (importCodeFor name relPath).data.length := by
                rw [huv, List.length_append]
                have : 0 < v.length := List.length_pos.2 hv
                omega
              have hall := List.all_eq_true.1 hSafe u.length (List.mem_range.2 hklt)
              have hkne : (u.length == 0) = false := by
                simp [List.length_eq_zero, hu]
              rw [hkne, Bool.false_or, Bool.and_eq_true] at hall
              rcases pfx_append_cases hw with ⟨r, hr⟩ | ⟨r, hr⟩
              · have : isPfx v vestaExpressMarker.data = true :=
                  (isPfx_iff v vestaExpressMarker.data).2 ⟨r, hr⟩
                rw [← hk] at this
                rw [this] at hall
                simp at hall
              · have : isPfx vestaExpressMarker.data v = true :=
                  (isPfx_iff vestaExpressMarker.data v).2 ⟨r, hr⟩
                rw [← hk] at this
                rw [this] at hall
                simp at hall
          · rw [replaceFirst_of_not_occurs _ (by
              cases h2 : occursIn vestaExpressMarker.data
                  (replaceFirstL registry vestaImportMarker.data
                    ((importCodeFor name relPath).data ++ '\n' :: vestaImportMarker.data)) with
              | false => rfl
              | true => exact absurd h2 hE)]
            exact hocc_s1
        rw [hafter]
        unfold registryAfterGen generateRegistryPatch
        by_cases hs2 : searchIsTruthy
            (replaceFirstL
              (replaceFirstL registry vestaImportMarker.data
                ((importCodeFor name relPath).data ++ '\n' :: vestaImportMarker.data))
              vestaExpressMarker.data
              ((embedCodeFor name).data ++ '\n' :: '\t' :: '\t' :: vestaExpressMarker.data))
            vestaExpressMarker.data = true
        · rw [if_pos hs2, if_pos (by rw [firstIdx_isSome_eq]; exact hocc_c)]
        · rw [if_neg hs2]
    · have h1 : registryAfterGen registry name relPath = registry := by
        unfold registryAfterGen generateRegistryPatch
        rw [if_neg hs]
      rw [h1]
      exact h1
  · intro h
    unfold registryAfterGen generateRegistryPatch
    by_cases hs : searchIsTruthy registry vestaExpressMarker.data = true
    · rw [if_pos hs, if_pos h]
    · rw [if_neg hs]

/-- Witness for C6: the double run on a marker-layout registry is byte-stable,
and a registry already holding the `profile` import is written back unchanged. -/
theorem registration_patch_idempotent_witness :
    registryAfterGen (registryAfterGen regWellFormed "profile" "./controller") "profile" "./controller"
      = registryAfterGen regWellFormed "profile" "./controller"
    ∧ registryAfterGen regAlreadyPatched "profile" "./controller" = regAlreadyPatched :=
  ⟨(registration_patch_idempotent regWellFormed "profile" "./controller"
      (by decide) (by decide)).1,
   (registration_patch_idempotent regAlreadyPatched "profile" "./controller"
      (by decide) (by decide)).2 (by decide)⟩

/-- C10 (counterexample): on a registry that holds the import marker but not
the express-controller placeholder, `search` returns `-1` (truthy), the patch
branch runs, and the rewritten registry content differs from the original —
the import replace call does find its marker — refuting the claim that an
absent placeholder leaves the content unchanged because "both replace calls
find no marker". -/
theorem registry_patch_marker_absent_changes_content_cex :
    searchIsTruthy regOnlyImportMarker vestaExpressMarker.data = true
    ∧ registryAfterGen regOnlyImportMarker "profile" "./controller" ≠ regOnlyImportMarker := by
  refine ⟨by decide, by decide⟩

/-- C10 (amended): the registry patch is attempted exactly when
`code.search(Placeholder.ExpressController)` is truthy (nonzero): a placeholder
at index 0 yields no patching at all, not even the existing-import check; when
the placeholder is absent (search `-1`), the branch still runs — it returns
without writing when the import is already present, and otherwise rewrites the
file, whose content is unchanged only when the import marker (and the import
itself) are also absent. -/
theorem registry_patch_branch_conditions (registry : List Char) (name relPath : String) :
    (generateRegistryPatch registry name relPath = PatchOutcome.noPatch
      ↔ searchIsTruthy registry vestaExpressMarker.data = false)
    ∧ (isPfx vestaExpressMarker.data registry = true →
        generateRegistryPatch registry name relPath = PatchOutcome.noPatch)
    ∧ (occursIn vestaExpressMarker.data registry = false →
        occursIn (importCodeFor name relPath).data registry = true →
        generateRegistryPatch registry name relPath = PatchOutcome.alreadyPresent)
    ∧ (occursIn vestaExpressMarker.data registry = false →
        occursIn vestaImportMarker.data registry = false →
        occursIn (importCodeFor name relPath).data registry = false →
        generateRegistryPatch registry name relPath = PatchOutcome.wrote registry) := by
  refine ⟨?_, ?_, ?_, ?_⟩
  · cases hb : searchIsTruthy registry vestaExpressMarker.data with
    | false =>
      constructor
      · intro _
        rfl
      · intro _
        unfold generateRegistryPatch
        rw [if_neg (by rw [hb]; exact Bool.false_ne_true)]
    | true =>
      have hne : generateRegistryPatch registry name relPath ≠ PatchOutcome.noPatch := by
        unfold generateRegistryPatch
        rw [if_pos hb]
        by_cases hic : (firstIdxL registry (importCodeFor name relPath).data).isSome = true
        · rw [if_pos hic]
          simp
        · rw [if_neg hic]
          simp
      exact ⟨fun h => absurd h hne, fun h => absurd h (by simp)⟩
  · intro h
    have h0 : firstIdxL registry vestaExpressMarker.data = some 0 :=
      (firstIdx_some_zero_iff registry vestaExpressMarker.data).2 h
    have hfalse : searchIsTruthy registry vestaExpressMarker.data = false := by
      unfold searchIsTruthy
      rw [h0]
    unfold generateRegistryPatch
    rw [if_neg (by rw [hfalse]; exact Bool.false_ne_true)]
  · intro hE hic
    unfold generateRegistryPatch
    rw [if_pos (searchTruthy_of_not_occurs hE),
      if_pos (by rw [firstIdx_isSome_eq]; exact hic)]
  · intro hE hImp hic
    unfold generateRegistryPatch
    rw [if_pos (searchTruthy_of_not_occurs hE),
      if_neg (by rw [firstIdx_isSome_eq, hic]; exact Bool.false_ne_true),
      replaceFirst_of_not_occurs _ hImp, replaceFirst_of_not_occurs _ hE]

/-- Witness for C10's amended claim: the placeholder at index 0 suppresses
patching entirely, and a marker-free registry is rewritten with identical
content. -/
theorem registry_patch_branch_conditions_witness :
    generateRegistryPatch regExprAtZero "profile" "./controller" = PatchOutcome.noPatch
    ∧ generateRegistryPatch regNoMarkers "profile" "./controller"
        = PatchOutcome.wrote regNoMarkers :=
  ⟨(registry_patch_branch_conditions regExprAtZero "profile" "./controller").2.1 (by decide),
   (registry_patch_branch_conditions regNoMarkers "profile" "./controller").2.2.2
     (by decide) (by decide) (by decide)⟩

end Vesta
